import Mathlib

/-!
Shallow embedding of the iirdsp library (C sources: sos.h/sos.c, butter.c,
notch.c, config.h) over the real numbers, together with theorems settling
the specification claims about it.

Machine floating point (the C type iirdsp_real = double) is modelled by ℝ;
buffers are modelled by lists of reals; the fixed-capacity section array
plus active count of iirdsp_filter_t is modelled by the list of active
sections (only sections[0 .. num_sections) are ever read by the code).
A design entry point that in C returns an int status and mutates the
filter through a pointer is modelled as a function from the prior filter
to a pair (status, new filter). The environmental outcome of malloc in
iirdsp_filtfilt is modelled by an explicit Boolean allocation oracle.
-/

noncomputable section

open Real

/-- IIRDSP_MAX_SECTIONS from config.h. -/
def IIRDSP_MAX_SECTIONS : ℤ := 8

/-- Biquad (second-order section) state and coefficients, from sos.h:
numerator b0 b1 b2, denominator a1 a2 (a0 normalized to 1), state z1 z2. -/
structure iirdsp_biquad where
  b0 : ℝ
  b1 : ℝ
  b2 : ℝ
  a1 : ℝ
  a2 : ℝ
  z1 : ℝ
  z2 : ℝ

instance : Inhabited iirdsp_biquad := ⟨⟨0, 0, 0, 0, 0, 0, 0⟩⟩

/-- IIR filter as a cascade of second-order sections (sos.h). The C struct
holds a fixed array of IIRDSP_MAX_SECTIONS biquads plus an active count;
we keep exactly the active sections. -/
structure iirdsp_filter where
  sections : List iirdsp_biquad

/-- The active-section count of the cascade. -/
def iirdsp_filter.num_sections (f : iirdsp_filter) : ℕ :=
  f.sections.length

/-- iirdsp_filter_init from sos.h: zero all state variables. -/
def iirdsp_filter_init (f : iirdsp_filter) : iirdsp_filter :=
  ⟨f.sections.map fun s => { s with z1 := 0, z2 := 0 }⟩

/-- iirdsp_biquad_process from sos.h (Direct Form II Transposed):
y = b0*x + z1; z1 := b1*x - a1*y + z2; z2 := b2*x - a2*y; return y.
Returns the output sample and the updated biquad. -/
def iirdsp_biquad_process (s : iirdsp_biquad) (x : ℝ) : ℝ × iirdsp_biquad :=
  let y := s.b0 * x + s.z1
  (y, { s with z1 := s.b1 * x - s.a1 * y + s.z2, z2 := s.b2 * x - s.a2 * y })

/-- The loop body of iirdsp_process_sample: thread the sample through a list
of sections, collecting the updated sections. -/
def processSections : List iirdsp_biquad → ℝ → ℝ × List iirdsp_biquad
  | [], x => (x, [])
  | s :: rest, x =>
    let r := iirdsp_biquad_process s x
    let r2 := processSections rest r.1
    (r2.1, r.2 :: r2.2)

/-- iirdsp_process_sample from sos.h: feed x through each active section in
order; returns the final output and the filter with updated state. -/
def iirdsp_process_sample (f : iirdsp_filter) (x : ℝ) : ℝ × iirdsp_filter :=
  let r := processSections f.sections x
  (r.1, ⟨r.2⟩)

/-- iirdsp_process_buffer from sos.c: y[n] = iirdsp_process_sample(f, x[n])
for n = 0 .. N-1. Returns the final filter state and the output buffer. -/
def iirdsp_process_buffer (f : iirdsp_filter) : List ℝ → iirdsp_filter × List ℝ
  | [] => (f, [])
  | a :: rest =>
    let r := iirdsp_process_sample f a
    let r2 := iirdsp_process_buffer r.2 rest
    (r2.1, r.1 :: r2.2)

/-- iirdsp_filtfilt from sos.c. The allocOk flag models whether the malloc
of the length-N scratch buffer succeeds; on failure the C function returns
at once (void, no status), touching neither the filter nor y. On success:
reset, forward-filter x into temp, reset, reverse temp, filter into y,
reverse y. The prior contents of the caller's output buffer are the
argument y; they are returned unchanged on allocation failure and are
never read on success. -/
def iirdsp_filtfilt (f : iirdsp_filter) (x y : List ℝ) (allocOk : Bool) :
    iirdsp_filter × List ℝ :=
  if allocOk = false then (f, y)
  else
    let f1 := iirdsp_filter_init f
    let r1 := iirdsp_process_buffer f1 x
    let f2 := iirdsp_filter_init r1.1
    let temp := r1.2.reverse
    let r2 := iirdsp_process_buffer f2 temp
    (r2.1, r2.2.reverse)

/-- Memory-level model of running iirdsp_process_buffer with the output
buffer aliased to the input buffer: at index n the sample still stored at
buf[n] is read, processed, and the result immediately overwrites buf[n]. -/
def iirdsp_process_buffer_aliased_go (f : iirdsp_filter) (buf : List ℝ)
    (n : ℕ) : iirdsp_filter × List ℝ :=
  if h : n < buf.length then
    let r := iirdsp_process_sample f (buf.get ⟨n, h⟩)
    iirdsp_process_buffer_aliased_go r.2 (buf.set n r.1) (n + 1)
  else
    (f, buf)
termination_by buf.length - n
decreasing_by simp only [List.length_set]; omega

/-- iirdsp_process_buffer executed with y = x (the aliased call). -/
def iirdsp_process_buffer_aliased (f : iirdsp_filter) (buf : List ℝ) :
    iirdsp_filter × List ℝ :=
  iirdsp_process_buffer_aliased_go f buf 0

/-- butter_analog_poles from butter.c: for k = 0 .. order-1, with
angle = pi*(2k + order + 1)/(2*order), store the pole
(-sin(angle), cos(angle)) as a (real, imaginary) pair. -/
def butter_analog_poles (order : ℕ) : List (ℝ × ℝ) :=
  (List.range order).map fun k =>
    let angle := π * (2 * (k : ℝ) + (order : ℝ) + 1) / (2 * (order : ℝ))
    (-Real.sin angle, Real.cos angle)

/-- The per-pole bilinear map inside bilinear_zpk (butter.c lines 83-97):
p_z = (1 + p_s/fs2) / (1 - p_s/fs2) by explicit complex division. -/
def bilinear_pole (fs2 : ℝ) (p : ℝ × ℝ) : ℝ × ℝ :=
  let num_re := 1 + p.1 / fs2
  let num_im := p.2 / fs2
  let den_re := 1 - p.1 / fs2
  let den_im := -(p.2 / fs2)
  let denom := den_re * den_re + den_im * den_im
  ((num_re * den_re + num_im * den_im) / denom,
   (num_im * den_re - num_re * den_im) / denom)

/-- The digital zeros synthesized by bilinear_zpk (butter.c lines 99-122):
all at z = -1 for low-pass (type 0), all at z = +1 for high-pass (type 1),
first half at -1 and second half at +1 for band-pass (type 2). -/
def digital_zeros (n : ℕ) (filter_type : ℕ) : List (ℝ × ℝ) :=
  if filter_type = 0 then List.replicate n (-1, 0)
  else if filter_type = 1 then List.replicate n (1, 0)
  else List.replicate (n / 2) (-1, 0) ++ List.replicate (n - n / 2) (1, 0)

/-- The pole/zero pairing loop body of bilinear_zpk (butter.c lines 125-187):
section i takes digital poles 2i, 2i+1 (or the lone last pole with its
conjugate for odd counts) and the matching zeros, expands
(z - z1)(z - z2) / ((z - p1)(z - p2)) keeping only the real parts of the
symmetric coefficients, and normalizes by a0 = 1. -/
def sos_section (poles_z zeros_z : List (ℝ × ℝ)) (num_poles num_zeros : ℕ)
    (i : ℕ) : iirdsp_biquad :=
  let pd : ℝ × ℝ := (0, 0)
  let pp :=
    if 2 * i + 1 < num_poles then
      (poles_z.getD (2 * i) pd, poles_z.getD (2 * i + 1) pd)
    else if 2 * i < num_poles then
      let p1 := poles_z.getD (num_poles - 1) pd
      (p1, (p1.1, -p1.2))
    else
      (((0 : ℝ), (0 : ℝ)), ((0 : ℝ), (0 : ℝ)))
  let zz :=
    if 2 * i + 1 < num_zeros then
      (zeros_z.getD (2 * i) pd, zeros_z.getD (2 * i + 1) pd)
    else if 2 * i < num_zeros then
      let z1 := zeros_z.getD (num_zeros - 1) pd
      (z1, z1)
    else
      (zeros_z.getD 0 pd, zeros_z.getD 0 pd)
  let b0 : ℝ := 1
  let b1 := -(zz.1.1 + zz.2.1)
  let b2 := zz.1.1 * zz.2.1 - zz.1.2 * zz.2.2
  let a0 : ℝ := 1
  let a1 := -(pp.1.1 + pp.2.1)
  let a2 := pp.1.1 * pp.2.1 - pp.1.2 * pp.2.2
  ⟨b0 / a0, b1 / a0, b2 / a0, a1 / a0, a2 / a0, 0, 0⟩

/-- bilinear_zpk from butter.c: convert num_poles analog poles to digital
poles, synthesize the digital zeros for the filter type, and pair them
into (num_poles + 1) / 2 second-order sections. The analog zeros argument
is NULL at every call site and is not read. -/
def bilinear_zpk (poles_s : List (ℝ × ℝ)) (num_poles : ℕ) (fs_hz : ℝ)
    (filter_type : ℕ) : iirdsp_filter :=
  let fs2 := 2 * fs_hz
  let num_sections := (num_poles + 1) / 2
  let poles_z := (List.range num_poles).map fun i =>
    bilinear_pole fs2 (poles_s.getD i (0, 0))
  let zeros_z := digital_zeros num_poles filter_type
  ⟨(List.range num_sections).map (sos_section poles_z zeros_z num_poles num_poles)⟩

/-- compute_gain_at_freq from butter.c: the magnitude of the cascade's
frequency response at normalized frequency freq (0 = DC, 0.5 = Nyquist),
accumulated section by section with explicit complex arithmetic. -/
def compute_gain_at_freq (f : iirdsp_filter) (freq : ℝ) : ℝ :=
  let w := 2 * π * freq
  let cos_w := Real.cos w
  let sin_w := Real.sin w
  let cos_2w := Real.cos (2 * w)
  let sin_2w := Real.sin (2 * w)
  let g := f.sections.foldl
    (fun (gain : ℝ × ℝ) s =>
      let num_re := s.b0 + s.b1 * cos_w + s.b2 * cos_2w
      let num_im := -(s.b1 * sin_w) - s.b2 * sin_2w
      let den_re := 1 + s.a1 * cos_w + s.a2 * cos_2w
      let den_im := -(s.a1 * sin_w) - s.a2 * sin_2w
      let denom := den_re * den_re + den_im * den_im
      let h_re := (num_re * den_re + num_im * den_im) / denom
      let h_im := (num_im * den_re - num_re * den_im) / denom
      (gain.1 * h_re - gain.2 * h_im, gain.1 * h_im + gain.2 * h_re))
    ((1 : ℝ), (0 : ℝ))
  Real.sqrt (g.1 * g.1 + g.2 * g.2)

/-- normalize_gain from butter.c: divide the first section's numerator
coefficients by the cascade gain at freq, unless that gain is below 1e-10. -/
def normalize_gain (f : iirdsp_filter) (freq : ℝ) : iirdsp_filter :=
  let gain := compute_gain_at_freq f freq
  if gain > 1 / 10 ^ 10 then
    ⟨f.sections.modifyHead fun s =>
      { s with b0 := s.b0 / gain, b1 := s.b1 / gain, b2 := s.b2 / gain }⟩
  else f

/-- butter_lowpass_init from butter.c: validate order and cutoff, compute
the analog prototype, pre-warp the cutoff, scale the poles, apply the
bilinear transform with zeros at z = -1, and normalize the gain at DC. -/
def butter_lowpass_init (f : iirdsp_filter) (order : ℤ) (cutoff_hz fs_hz : ℝ) :
    ℤ × iirdsp_filter :=
  if order ≤ 0 ∨ 2 * IIRDSP_MAX_SECTIONS < order then (-1, f)
  else if cutoff_hz ≤ 0 ∨ fs_hz / 2 ≤ cutoff_hz then (-2, f)
  else
    let N := order.toNat
    let poles_s := butter_analog_poles N
    let wc_warped := 2 * fs_hz * Real.tan (π * cutoff_hz / fs_hz)
    let scaled := poles_s.map fun p => (p.1 * wc_warped, p.2 * wc_warped)
    let f1 := bilinear_zpk scaled N fs_hz 0
    (0, normalize_gain f1 0)

/-- butter_highpass_init from butter.c: as low-pass, but each analog pole p
is replaced by -p * wc / |p|^2 (the transform s -> wc/s), the digital zeros
sit at z = +1, and the gain is normalized at Nyquist. -/
def butter_highpass_init (f : iirdsp_filter) (order : ℤ) (cutoff_hz fs_hz : ℝ) :
    ℤ × iirdsp_filter :=
  if order ≤ 0 ∨ 2 * IIRDSP_MAX_SECTIONS < order then (-1, f)
  else if cutoff_hz ≤ 0 ∨ fs_hz / 2 ≤ cutoff_hz then (-2, f)
  else
    let N := order.toNat
    let poles_s := butter_analog_poles N
    let wc_warped := 2 * fs_hz * Real.tan (π * cutoff_hz / fs_hz)
    let hp := poles_s.map fun p =>
      let mag_sq := p.1 * p.1 + p.2 * p.2
      (-(p.1) * wc_warped / mag_sq, -(p.2) * wc_warped / mag_sq)
    let f1 := bilinear_zpk hp N fs_hz 1
    (0, normalize_gain f1 (1 / 2))

/-- The two band-pass poles butter_bandpass_init derives from one prototype
pole (butter.c lines 392-420): only the real part of p enters the quadratic
(alpha = -Re(p)*BW/2, beta_sq = alpha^2 - w0^2) and Im(p)*BW is added to
the imaginary part of both resulting poles. -/
def bp_pole_pair (bw w0 : ℝ) (p : ℝ × ℝ) : List (ℝ × ℝ) :=
  let alpha := -(p.1) * bw / 2
  let beta_sq := alpha * alpha - w0 * w0
  if beta_sq ≥ 0 then
    let beta := Real.sqrt beta_sq
    [(alpha + beta, p.2 * bw), (alpha - beta, p.2 * bw)]
  else
    let beta := Real.sqrt (-beta_sq)
    [(alpha, beta + p.2 * bw), (alpha, -beta + p.2 * bw)]

/-- The low-pass to band-pass pole loop of butter_bandpass_init: each
prototype pole contributes its pair, in order. -/
def lp_to_bp_poles (poles_lp : List (ℝ × ℝ)) (bw w0 : ℝ) : List (ℝ × ℝ) :=
  poles_lp.flatMap (bp_pole_pair bw w0)

/-- butter_bandpass_init from butter.c: validate, pre-warp both cutoffs,
form w0 = sqrt(wc1*wc2) and BW = wc2 - wc1, expand each prototype pole to
two band-pass poles, bilinear-transform the 2N poles with band-pass zeros,
and normalize the gain at the geometric center frequency. -/
def butter_bandpass_init (f : iirdsp_filter) (order : ℤ)
    (f_low_hz f_high_hz fs_hz : ℝ) : ℤ × iirdsp_filter :=
  if order ≤ 0 ∨ IIRDSP_MAX_SECTIONS < order then (-1, f)
  else if f_low_hz ≤ 0 ∨ f_high_hz ≤ f_low_hz ∨ fs_hz / 2 ≤ f_high_hz then (-2, f)
  else
    let N := order.toNat
    let poles_lp := butter_analog_poles N
    let wc1 := 2 * fs_hz * Real.tan (π * f_low_hz / fs_hz)
    let wc2 := 2 * fs_hz * Real.tan (π * f_high_hz / fs_hz)
    let w0 := Real.sqrt (wc1 * wc2)
    let bw := wc2 - wc1
    let poles_bp := lp_to_bp_poles poles_lp bw w0
    let f1 := bilinear_zpk poles_bp (2 * N) fs_hz 2
    let f_center := Real.sqrt (f_low_hz * f_high_hz)
    (0, normalize_gain f1 (f_center / fs_hz))

/-- notch_filter_init from notch.c: validate Q, f0, fs, then the closed-form
second-order notch with w0 = 2*pi*f0/fs and alpha = sin(w0)/(2Q),
b = [1, -2cos(w0), 1] and a = [1+alpha, -2cos(w0), 1-alpha], all stored
divided by a0 = 1+alpha, with zeroed state; exactly one section. -/
def notch_filter_init (f : iirdsp_filter) (f0_hz Q fs_hz : ℝ) :
    ℤ × iirdsp_filter :=
  if Q ≤ 0 ∨ f0_hz ≤ 0 ∨ fs_hz ≤ 0 then (-1, f)
  else if fs_hz / 2 ≤ f0_hz then (-2, f)
  else
    let w0 := 2 * π * f0_hz / fs_hz
    let alpha := Real.sin w0 / (2 * Q)
    let cos_w0 := Real.cos w0
    let b0 : ℝ := 1
    let b1 := -2 * cos_w0
    let b2 : ℝ := 1
    let a0 := 1 + alpha
    let a1 := -2 * cos_w0
    let a2 := 1 - alpha
    (0, ⟨[⟨b0 / a0, b1 / a0, b2 / a0, a1 / a0, a2 / a0, 0, 0⟩]⟩)

/-- Complex multiplication on (real, imaginary) pairs, used to state the
band-pass quadratic of claim C3. -/
def cmul (u v : ℝ × ℝ) : ℝ × ℝ :=
  (u.1 * v.1 - u.2 * v.2, u.1 * v.2 + u.2 * v.1)

/-- The pre-warped low cutoff computed by butter_bandpass_init at the
concrete input f_low = 1 Hz, fs = 8 Hz. -/
def bp_wc1 : ℝ := 2 * 8 * Real.tan (π * 1 / 8)

/-- The pre-warped high cutoff at f_high = 2 Hz, fs = 8 Hz. -/
def bp_wc2 : ℝ := 2 * 8 * Real.tan (π * 2 / 8)

/-- The geometric center frequency w0 = sqrt(wc1*wc2) at that input. -/
def bp_w0 : ℝ := Real.sqrt (bp_wc1 * bp_wc2)

/-- The absolute bandwidth BW = wc2 - wc1 at that input. -/
def bp_bw : ℝ := bp_wc2 - bp_wc1

/-! Helper lemmas about the execution engine. -/

/-- A cascade with no sections passes every buffer through unchanged. -/
theorem process_buffer_no_sections (xs : List ℝ) :
    iirdsp_process_buffer ⟨[]⟩ xs = (⟨[]⟩, xs) := by
  induction xs with
  | nil => rfl
  | cons a rest ih => simp [iirdsp_process_buffer, iirdsp_process_sample, processSections, ih]

/-- Threading a sample through concatenated section lists composes. -/
theorem processSections_append (l1 l2 : List iirdsp_biquad) (x : ℝ) :
    processSections (l1 ++ l2) x =
      ((processSections l2 (processSections l1 x).1).1,
       (processSections l1 x).2 ++ (processSections l2 (processSections l1 x).1).2) := by
  induction l1 generalizing x with
  | nil => simp [processSections]
  | cons s rest ih => simp [processSections, ih]

/-- Reading the element sitting at the junction of an append. -/
theorem get_append_cons (pre suf : List ℝ) (a : ℝ)
    (h : pre.length < (pre ++ a :: suf).length) :
    (pre ++ a :: suf).get ⟨pre.length, h⟩ = a := by
  induction pre with
  | nil => rfl
  | cons b pre ih => exact ih (by simp)

/-- Overwriting the element sitting at the junction of an append. -/
theorem set_append_cons (pre suf : List ℝ) (a y : ℝ) :
    (pre ++ a :: suf).set pre.length y = pre ++ y :: suf := by
  induction pre with
  | nil => rfl
  | cons b pre ih => simp [List.set, ih]

/-- The in-place (aliased) buffer loop, started after an already-processed
prefix, agrees with the two-buffer iirdsp_process_buffer on the suffix. -/
theorem aliased_go_spec (suf : List ℝ) : ∀ (pre : List ℝ) (f : iirdsp_filter),
    iirdsp_process_buffer_aliased_go f (pre ++ suf) pre.length =
      ((iirdsp_process_buffer f suf).1, pre ++ (iirdsp_process_buffer f suf).2) := by
  induction suf with
  | nil =>
    intro pre f
    rw [iirdsp_process_buffer_aliased_go]
    simp [iirdsp_process_buffer]
  | cons a rest ih =>
    intro pre f
    rw [iirdsp_process_buffer_aliased_go]
    have hlt : pre.length < (pre ++ a :: rest).length := by simp
    rw [dif_pos hlt]
    simp only [get_append_cons pre rest a hlt, set_append_cons]
    show iirdsp_process_buffer_aliased_go (iirdsp_process_sample f a).2
        (pre ++ (iirdsp_process_sample f a).1 :: rest) (pre.length + 1) = _
    have hsplit : pre ++ (iirdsp_process_sample f a).1 :: rest =
        (pre ++ [(iirdsp_process_sample f a).1]) ++ rest := by simp
    have hlen : pre.length + 1 = (pre ++ [(iirdsp_process_sample f a).1]).length := by simp
    rw [hsplit, hlen, ih]
    simp [iirdsp_process_buffer]

/-- C10: a cascade whose num_sections is 0 is the identity filter:
iirdsp_process_sample returns its input unchanged and leaves the filter
untouched, and iirdsp_process_buffer copies the input buffer to the
output. -/
theorem empty_cascade_identity (f : iirdsp_filter) (x : ℝ) (xs : List ℝ)
    (h : f.num_sections = 0) :
    iirdsp_process_sample f x = (x, f) ∧
    iirdsp_process_buffer f xs = (f, xs) := by
  obtain ⟨l⟩ := f
  have hl : l = [] := List.length_eq_zero.mp h
  subst hl
  exact ⟨rfl, process_buffer_no_sections xs⟩

/-- Witness for C10 at a concrete empty cascade and concrete samples. -/
theorem empty_cascade_identity_witness :
    (iirdsp_filter.mk []).num_sections = 0 ∧
    (iirdsp_process_sample ⟨[]⟩ 5 = (5, ⟨[]⟩) ∧
     iirdsp_process_buffer ⟨[]⟩ [1, 2] = (⟨[]⟩, [1, 2])) :=
  ⟨rfl, empty_cascade_identity ⟨[]⟩ 5 [1, 2] rfl⟩

/-- C8: one biquad step returns y = b0*x + z1 and replaces the state by
z1 = b1*x - a1*y + z2 and z2 = b2*x - a2*y, leaving the coefficients
untouched; consequently iirdsp_process_sample on a cascade split as
l1 ++ l2 feeds the output of the l1 stages into the l2 stages, each
section's output being the next section's input. -/
theorem biquad_step_and_cascade_order (s : iirdsp_biquad) (x : ℝ)
    (l1 l2 : List iirdsp_biquad) :
    iirdsp_biquad_process s x =
      (s.b0 * x + s.z1,
       ⟨s.b0, s.b1, s.b2, s.a1, s.a2,
        s.b1 * x - s.a1 * (s.b0 * x + s.z1) + s.z2,
        s.b2 * x - s.a2 * (s.b0 * x + s.z1)⟩) ∧
    iirdsp_process_sample ⟨l1 ++ l2⟩ x =
      ((iirdsp_process_sample ⟨l2⟩ (iirdsp_process_sample ⟨l1⟩ x).1).1,
       ⟨(iirdsp_process_sample ⟨l1⟩ x).2.sections ++
        (iirdsp_process_sample ⟨l2⟩ (iirdsp_process_sample ⟨l1⟩ x).1).2.sections⟩) := by
  constructor
  · rfl
  · simp [iirdsp_process_sample, processSections_append]

/-- C4 counterexample: iirdsp_filtfilt is void in C; modelling the malloc
outcome explicitly, the allocation-failure run and the successful run of
the same concrete call return identical results (filter and buffer), so
no returned value distinguishes success from allocation failure. -/
theorem filtfilt_no_status_counterexample :
    iirdsp_filtfilt ⟨[]⟩ [1, 2, 3] [1, 2, 3] true =
      iirdsp_filtfilt ⟨[]⟩ [1, 2, 3] [1, 2, 3] false := by
  simp [iirdsp_filtfilt, iirdsp_filter_init, process_buffer_no_sections]

/-- C4 amended: iirdsp_filtfilt returns no status (it is void); when the
scratch allocation fails it returns immediately, leaving the output buffer
(and the filter) entirely unmodified - never a partial write. -/
theorem filtfilt_alloc_failure_no_write (f : iirdsp_filter) (x y : List ℝ) :
    iirdsp_filtfilt f x y false = (f, y) := rfl

/-- C9: running iirdsp_process_buffer with the output buffer aliased to the
input buffer (index-by-index immediate overwrite) produces exactly the
two-buffer result, and iirdsp_filtfilt called with y = x produces the same
output and final filter state as with any distinct output buffer (its
successful path never reads the prior contents of y). -/
theorem aliasing_is_safe (f : iirdsp_filter) (buf y : List ℝ) :
    iirdsp_process_buffer_aliased f buf = iirdsp_process_buffer f buf ∧
    iirdsp_filtfilt f buf buf true = iirdsp_filtfilt f buf y true := by
  constructor
  · have h := aliased_go_spec buf [] f
    simpa [iirdsp_process_buffer_aliased] using h
  · rfl

/-! Design facade: validation, section counts, notch. -/

/-- C5: each Butterworth entry point validates before computing, with
distinct codes: -1 for invalid order (non-positive or above the cascade
capacity: 16 for low/high-pass, 8 for band-pass since band-pass doubles
the pole count), -2 for an invalid frequency (non-positive, at or above
Nyquist - never clamped - or a degenerate band), returning the filter in
its prior state in every error case, and status 0 on valid parameters. -/
theorem design_entry_validation (f : iirdsp_filter) (N : ℤ) (c fl fh fs : ℝ) :
    ((N ≤ 0 ∨ 16 < N) →
      butter_lowpass_init f N c fs = (-1, f) ∧
      butter_highpass_init f N c fs = (-1, f)) ∧
    ((N ≤ 0 ∨ 8 < N) → butter_bandpass_init f N fl fh fs = (-1, f)) ∧
    (0 < N → N ≤ 16 → (c ≤ 0 ∨ fs / 2 ≤ c) →
      butter_lowpass_init f N c fs = (-2, f) ∧
      butter_highpass_init f N c fs = (-2, f)) ∧
    (0 < N → N ≤ 8 → (fl ≤ 0 ∨ fh ≤ fl ∨ fs / 2 ≤ fh) →
      butter_bandpass_init f N fl fh fs = (-2, f)) ∧
    (0 < N → N ≤ 16 → 0 < c → c < fs / 2 →
      (butter_lowpass_init f N c fs).1 = 0 ∧
      (butter_highpass_init f N c fs).1 = 0) ∧
    (0 < N → N ≤ 8 → 0 < fl → fl < fh → fh < fs / 2 →
      (butter_bandpass_init f N fl fh fs).1 = 0) := by
  have hmax : (2 * IIRDSP_MAX_SECTIONS : ℤ) = 16 := by norm_num [IIRDSP_MAX_SECTIONS]
  have hmax8 : (IIRDSP_MAX_SECTIONS : ℤ) = 8 := by norm_num [IIRDSP_MAX_SECTIONS]
  refine ⟨fun h => ⟨?_, ?_⟩, fun h => ?_, fun h1 h2 h3 => ⟨?_, ?_⟩,
    fun h1 h2 h3 => ?_, fun h1 h2 h3 h4 => ⟨?_, ?_⟩, fun h1 h2 h3 h4 h5 => ?_⟩
  · rw [butter_lowpass_init, if_pos (by rw [hmax]; exact h)]
  · rw [butter_highpass_init, if_pos (by rw [hmax]; exact h)]
  · rw [butter_bandpass_init, if_pos (by rw [hmax8]; exact h)]
  · rw [butter_lowpass_init, if_neg (by rw [hmax]; omega), if_pos h3]
  · rw [butter_highpass_init, if_neg (by rw [hmax]; omega), if_pos h3]
  · rw [butter_bandpass_init, if_neg (by rw [hmax8]; omega), if_pos h3]
  · rw [butter_lowpass_init, if_neg (by rw [hmax]; omega),
      if_neg (by push_neg; exact ⟨h3, h4⟩)]
  · rw [butter_highpass_init, if_neg (by rw [hmax]; omega),
      if_neg (by push_neg; exact ⟨h3, h4⟩)]
  · rw [butter_bandpass_init, if_neg (by rw [hmax8]; omega),
      if_neg (by push_neg; exact ⟨h3, h4, h5⟩)]

/-- Witness for C5: concrete rejected and accepted parameter sets. -/
theorem design_entry_validation_witness :
    butter_lowpass_init ⟨[]⟩ 0 1 8 = (-1, ⟨[]⟩) ∧
    butter_highpass_init ⟨[]⟩ 17 1 8 = (-1, ⟨[]⟩) ∧
    butter_bandpass_init ⟨[]⟩ 9 1 2 8 = (-1, ⟨[]⟩) ∧
    butter_lowpass_init ⟨[]⟩ 2 4 8 = (-2, ⟨[]⟩) ∧
    butter_bandpass_init ⟨[]⟩ 2 2 1 8 = (-2, ⟨[]⟩) ∧
    (butter_lowpass_init ⟨[]⟩ 2 1 8).1 = 0 ∧
    (butter_bandpass_init ⟨[]⟩ 2 1 2 8).1 = 0 :=
  ⟨((design_entry_validation ⟨[]⟩ 0 1 0 0 8).1 (Or.inl (by norm_num))).1,
   ((design_entry_validation ⟨[]⟩ 17 1 0 0 8).1 (Or.inr (by norm_num))).2,
   (design_entry_validation ⟨[]⟩ 9 0 1 2 8).2.1 (Or.inr (by norm_num)),
   ((design_entry_validation ⟨[]⟩ 2 4 0 0 8).2.2.1 (by norm_num) (by norm_num)
     (Or.inr (by norm_num))).1,
   (design_entry_validation ⟨[]⟩ 2 0 2 1 8).2.2.2.1 (by norm_num) (by norm_num)
     (Or.inr (Or.inl (by norm_num))),
   ((design_entry_validation ⟨[]⟩ 2 1 0 0 8).2.2.2.2.1 (by norm_num) (by norm_num)
     (by norm_num) (by norm_num)).1,
   (design_entry_validation ⟨[]⟩ 2 0 1 2 8).2.2.2.2.2 (by norm_num) (by norm_num)
     (by norm_num) (by norm_num) (by norm_num)⟩

/-- Each prototype pole expands to exactly two band-pass poles. -/
theorem bp_pole_pair_length (bw w0 : ℝ) (p : ℝ × ℝ) :
    (bp_pole_pair bw w0 p).length = 2 := by
  unfold bp_pole_pair
  dsimp only
  split_ifs <;> rfl

/-- The low-pass to band-pass transform doubles the pole count. -/
theorem lp_to_bp_poles_length (l : List (ℝ × ℝ)) (bw w0 : ℝ) :
    (lp_to_bp_poles l bw w0).length = 2 * l.length := by
  induction l with
  | nil => rfl
  | cons p rest ih =>
    simp only [lp_to_bp_poles, List.flatMap_cons, List.length_append,
      List.length_cons] at ih ⊢
    rw [bp_pole_pair_length, ih]
    ring

/-- bilinear_zpk always produces (num_poles + 1) / 2 sections. -/
theorem bilinear_zpk_num_sections (poles_s : List (ℝ × ℝ)) (n : ℕ) (fs : ℝ)
    (t : ℕ) : (bilinear_zpk poles_s n fs t).num_sections = (n + 1) / 2 := by
  simp [bilinear_zpk, iirdsp_filter.num_sections]

/-- Gain normalization does not change the number of sections. -/
theorem normalize_gain_num_sections (f : iirdsp_filter) (q : ℝ) :
    (normalize_gain f q).num_sections = f.num_sections := by
  unfold normalize_gain iirdsp_filter.num_sections
  dsimp only
  split_ifs <;> simp

/-- C6: for every valid order N and cutoffs strictly inside (0, Nyquist),
butter_lowpass_init and butter_highpass_init produce ceil(N/2) sections,
and butter_bandpass_init produces N sections (covering its 2N digital
poles). -/
theorem designed_section_counts (f : iirdsp_filter) (N : ℤ) (c fl fh fs : ℝ)
    (hN : 0 < N) (h16 : N ≤ 16) (hc : 0 < c) (hcfs : c < fs / 2)
    (hN8 : N ≤ 8) (hfl : 0 < fl) (hlh : fl < fh) (hfhs : fh < fs / 2) :
    (butter_lowpass_init f N c fs).2.num_sections = (N.toNat + 1) / 2 ∧
    (butter_highpass_init f N c fs).2.num_sections = (N.toNat + 1) / 2 ∧
    (butter_bandpass_init f N fl fh fs).2.num_sections = N.toNat := by
  have hmax : (2 * IIRDSP_MAX_SECTIONS : ℤ) = 16 := by norm_num [IIRDSP_MAX_SECTIONS]
  have hmax8 : (IIRDSP_MAX_SECTIONS : ℤ) = 8 := by norm_num [IIRDSP_MAX_SECTIONS]
  refine ⟨?_, ?_, ?_⟩
  · rw [butter_lowpass_init, if_neg (by rw [hmax]; omega),
      if_neg (by push_neg; exact ⟨hc, hcfs⟩)]
    simp [normalize_gain_num_sections, bilinear_zpk_num_sections]
  · rw [butter_highpass_init, if_neg (by rw [hmax]; omega),
      if_neg (by push_neg; exact ⟨hc, hcfs⟩)]
    simp [normalize_gain_num_sections, bilinear_zpk_num_sections]
  · rw [butter_bandpass_init, if_neg (by rw [hmax8]; omega),
      if_neg (by push_neg; exact ⟨hfl, hlh, hfhs⟩)]
    simp only [normalize_gain_num_sections, bilinear_zpk_num_sections]
    omega

/-- Witness for C6 at order 3, cutoffs 1 and 2 Hz, fs = 8 Hz. -/
theorem designed_section_counts_witness :
    (0 : ℤ) < 3 ∧
    ((butter_lowpass_init ⟨[]⟩ 3 1 8).2.num_sections = 2 ∧
     (butter_highpass_init ⟨[]⟩ 3 1 8).2.num_sections = 2 ∧
     (butter_bandpass_init ⟨[]⟩ 3 1 2 8).2.num_sections = 3) :=
  ⟨by norm_num,
   designed_section_counts ⟨[]⟩ 3 1 1 2 8 (by norm_num) (by norm_num) (by norm_num)
     (by norm_num) (by norm_num) (by norm_num) (by norm_num) (by norm_num)⟩

/-- C7: notch_filter_init fails (nonzero status) exactly when Q ≤ 0, f0 ≤ 0,
fs ≤ 0 or f0 ≥ fs/2; otherwise it succeeds with exactly one section whose
coefficients are b = [1, -2cos(w0), 1] and a = [1+alpha, -2cos(w0), 1-alpha]
divided by a0 = 1+alpha, with w0 = 2*pi*f0/fs and alpha = sin(w0)/(2Q), and
with both state variables zeroed. -/
theorem notch_design_exact (f : iirdsp_filter) (f0 Q fs : ℝ) :
    ((notch_filter_init f f0 Q fs).1 ≠ 0 ↔
      (Q ≤ 0 ∨ f0 ≤ 0 ∨ fs ≤ 0 ∨ fs / 2 ≤ f0)) ∧
    (0 < Q → 0 < f0 → 0 < fs → f0 < fs / 2 →
      notch_filter_init f f0 Q fs =
        (0, ⟨[⟨1 / (1 + Real.sin (2 * π * f0 / fs) / (2 * Q)),
               -2 * Real.cos (2 * π * f0 / fs) / (1 + Real.sin (2 * π * f0 / fs) / (2 * Q)),
               1 / (1 + Real.sin (2 * π * f0 / fs) / (2 * Q)),
               -2 * Real.cos (2 * π * f0 / fs) / (1 + Real.sin (2 * π * f0 / fs) / (2 * Q)),
               (1 - Real.sin (2 * π * f0 / fs) / (2 * Q)) /
                 (1 + Real.sin (2 * π * f0 / fs) / (2 * Q)),
               0, 0⟩]⟩)) := by
  unfold notch_filter_init
  split_ifs with h1 h2
  · refine ⟨⟨fun _ => ?_, fun _ => by norm_num⟩, fun hQ hf0 hfs _ => ?_⟩
    · rcases h1 with h | h | h
      · exact Or.inl h
      · exact Or.inr (Or.inl h)
      · exact Or.inr (Or.inr (Or.inl h))
    · rcases h1 with h | h | h <;> linarith
  · refine ⟨⟨fun _ => Or.inr (Or.inr (Or.inr h2)), fun _ => by norm_num⟩,
      fun hQ hf0 hfs hlt => ?_⟩
    linarith
  · push_neg at h1 h2
    refine ⟨⟨fun hne => absurd rfl hne, fun hor => ?_⟩, fun _ _ _ _ => rfl⟩
    rcases hor with h | h | h | h
    · exact absurd h (not_le.mpr h1.1)
    · exact absurd h (not_le.mpr h1.2.1)
    · exact absurd h (not_le.mpr h1.2.2)
    · exact absurd h (not_le.mpr h2)

/-- Witness for C7 at f0 = 1 Hz, Q = 1, fs = 4 Hz. -/
theorem notch_design_exact_witness :
    (0 : ℝ) < 1 ∧
    notch_filter_init ⟨[]⟩ 1 1 4 =
      (0, ⟨[⟨1 / (1 + Real.sin (2 * π * 1 / 4) / (2 * 1)),
             -2 * Real.cos (2 * π * 1 / 4) / (1 + Real.sin (2 * π * 1 / 4) / (2 * 1)),
             1 / (1 + Real.sin (2 * π * 1 / 4) / (2 * 1)),
             -2 * Real.cos (2 * π * 1 / 4) / (1 + Real.sin (2 * π * 1 / 4) / (2 * 1)),
             (1 - Real.sin (2 * π * 1 / 4) / (2 * 1)) /
               (1 + Real.sin (2 * π * 1 / 4) / (2 * 1)),
             0, 0⟩]⟩) :=
  ⟨by norm_num,
   (notch_design_exact ⟨[]⟩ 1 1 4).2 (by norm_num) (by norm_num) (by norm_num)
     (by norm_num)⟩

/-! Concrete evaluations of the analog prototype. -/

/-- The order-1 prototype pole list: the single pole is (0, -1). -/
theorem butter_analog_poles_one : butter_analog_poles 1 = [(0, -1)] := by
  unfold butter_analog_poles
  simp [List.range_succ]
  rw [show π * ((1 : ℝ) + 1) / 2 = π by ring]
  exact ⟨Real.sin_pi, Real.cos_pi⟩

/-- The order-2 prototype pole list: angles 3π/4 and 5π/4 stored as
(-sin, cos) give (-√2/2, -√2/2) and (+√2/2, -√2/2). -/
theorem butter_analog_poles_two :
    butter_analog_poles 2 =
      [(-(Real.sqrt 2 / 2), -(Real.sqrt 2 / 2)),
       (Real.sqrt 2 / 2, -(Real.sqrt 2 / 2))] := by
  unfold butter_analog_poles
  simp [List.range_succ]
  constructor
  · rw [show π * ((2 : ℝ) + 1) / (2 * 2) = π - π / 4 by ring, Real.sin_pi_sub,
      Real.cos_pi_sub, Real.sin_pi_div_four, Real.cos_pi_div_four]
    exact ⟨rfl, rfl⟩
  · rw [show π * ((2 : ℝ) + 2 + 1) / (2 * 2) = π / 4 + π by ring, Real.sin_add_pi,
      Real.cos_add_pi, Real.sin_pi_div_four, Real.cos_pi_div_four]
    norm_num

/-- C1 (code bug): at order 2 the pole stored for k = 1 is
(+√2/2, -√2/2): its real part is strictly positive, so it lies in the
right half-plane, although the code and the spec promise left-half-plane
(stable, strictly negative real part) poles. -/
theorem analog_pole_in_right_half_plane :
    ((butter_analog_poles 2).getD 1 (0, 0)).1 = Real.sqrt 2 / 2 ∧
    0 < ((butter_analog_poles 2).getD 1 (0, 0)).1 := by
  rw [butter_analog_poles_two]
  have h2 : (0 : ℝ) < Real.sqrt 2 := Real.sqrt_pos.mpr (by norm_num)
  refine ⟨rfl, ?_⟩
  show (0 : ℝ) < Real.sqrt 2 / 2
  linarith

/-! Evaluating the low-pass pipeline at order 2, cutoff 1 Hz, fs 4 Hz. -/

/-- Generic evaluation of the bilinear pole map at fs2 = 8. -/
theorem bilinear_pole_eval (a b re im : ℝ)
    (hD : (1 - a / 8) * (1 - a / 8) + -(b / 8) * -(b / 8) ≠ 0)
    (hre : (1 + a / 8) * (1 - a / 8) + b / 8 * -(b / 8) =
      re * ((1 - a / 8) * (1 - a / 8) + -(b / 8) * -(b / 8)))
    (him : b / 8 * (1 - a / 8) - (1 + a / 8) * -(b / 8) =
      im * ((1 - a / 8) * (1 - a / 8) + -(b / 8) * -(b / 8))) :
    bilinear_pole 8 (a, b) = (re, im) := by
  unfold bilinear_pole
  dsimp only
  rw [Prod.mk.injEq]
  exact ⟨by rw [div_eq_iff hD]; exact hre, by rw [div_eq_iff hD]; exact him⟩

/-- The first scaled analog pole maps to the digital pole (0, 1 - √2). -/
theorem bilinear_pole_lp0 :
    bilinear_pole 8 (-(Real.sqrt 2 / 2 * 8), -(Real.sqrt 2 / 2 * 8)) =
      (0, 1 - Real.sqrt 2) := by
  have ht : Real.sqrt 2 * Real.sqrt 2 = 2 := Real.mul_self_sqrt (by norm_num)
  have htnn : (0 : ℝ) ≤ Real.sqrt 2 := Real.sqrt_nonneg 2
  apply bilinear_pole_eval
  · intro h
    nlinarith [h, ht, htnn]
  · linear_combination (-(1 / 2) : ℝ) * ht
  · linear_combination ((Real.sqrt 2 + 1) / 2) * ht

/-- The second scaled analog pole maps to the digital pole (0, -(1 + √2)). -/
theorem bilinear_pole_lp1 :
    bilinear_pole 8 (Real.sqrt 2 / 2 * 8, -(Real.sqrt 2 / 2 * 8)) =
      (0, -(1 + Real.sqrt 2)) := by
  have ht : Real.sqrt 2 * Real.sqrt 2 = 2 := Real.mul_self_sqrt (by norm_num)
  have htnn : (0 : ℝ) ≤ Real.sqrt 2 := Real.sqrt_nonneg 2
  apply bilinear_pole_eval
  · intro h
    nlinarith [h, ht, htnn]
  · linear_combination (-(1 / 2) : ℝ) * ht
  · linear_combination ((Real.sqrt 2 - 1) / 2) * ht

/-- The digital sections of the order-2 low-pass design before gain
normalization: a single section with a1 = 0 and a2 = -1. -/
theorem bilinear_zpk_lp_2_1_4 :
    (bilinear_zpk [(-(Real.sqrt 2 / 2 * 8), -(Real.sqrt 2 / 2 * 8)),
                   (Real.sqrt 2 / 2 * 8, -(Real.sqrt 2 / 2 * 8))] 2 4 0).sections =
      [⟨1, 2, 1, 0, -1, 0, 0⟩] := by
  have ht : Real.sqrt 2 * Real.sqrt 2 = 2 := Real.mul_self_sqrt (by norm_num)
  unfold bilinear_zpk digital_zeros sos_section
  dsimp only
  rw [show (2 : ℝ) * 4 = 8 by norm_num]
  simp only [List.range_succ, List.range_zero, List.nil_append, List.map_cons,
    List.map_nil, List.getD, List.get?, if_pos, if_neg]
  norm_num
  rw [bilinear_pole_lp0, bilinear_pole_lp1]
  constructor
  · norm_num
  · linear_combination (-1 : ℝ) * ht

/-- Gain normalization rescales only numerator coefficients of the first
section: every section's a1 and a2 are untouched. -/
theorem normalize_gain_preserves_a (f : iirdsp_filter) (q : ℝ) (i : ℕ) :
    ((normalize_gain f q).sections.getD i default).a1 =
      (f.sections.getD i default).a1 ∧
    ((normalize_gain f q).sections.getD i default).a2 =
      (f.sections.getD i default).a2 := by
  unfold normalize_gain
  dsimp only
  split_ifs with h
  · obtain ⟨l⟩ := f
    cases l with
    | nil => exact ⟨rfl, rfl⟩
    | cons s rest =>
      cases i with
      | zero => exact ⟨rfl, rfl⟩
      | succ n => exact ⟨rfl, rfl⟩
  · exact ⟨rfl, rfl⟩

/-- The accepted order-2 low-pass design at cutoff 1 Hz, fs 4 Hz, written
through the pipeline lemmas. -/
theorem butter_lowpass_2_1_4_eq :
    butter_lowpass_init ⟨[]⟩ 2 1 4 =
      (0, normalize_gain
        (bilinear_zpk [(-(Real.sqrt 2 / 2 * 8), -(Real.sqrt 2 / 2 * 8)),
                       (Real.sqrt 2 / 2 * 8, -(Real.sqrt 2 / 2 * 8))] 2 4 0) 0) := by
  rw [butter_lowpass_init, if_neg (by norm_num [IIRDSP_MAX_SECTIONS]),
    if_neg (by norm_num)]
  dsimp only
  rw [show ((2 : ℤ).toNat) = 2 from rfl, butter_analog_poles_two]
  rw [show 2 * (4 : ℝ) * Real.tan (π * 1 / 4) = 8 by
    rw [show π * 1 / 4 = π / 4 by ring, Real.tan_pi_div_four]; norm_num]
  norm_num

/-- C2 (code bug): the parameter set order 2, cutoff 1 Hz, fs 4 Hz is
accepted (status 0) by butter_lowpass_init, yet its only section has
a1 = 0 and a2 = -1, so z = 1 is a root of z^2 + a1*z + a2 with modulus
exactly 1: the stability conditions |a2| < 1 and |a1| < 1 + a2 both fail,
contradicting the promised strictly-stable (decaying) cascade. -/
theorem lowpass_accepts_unstable_section :
    (butter_lowpass_init ⟨[]⟩ 2 1 4).1 = 0 ∧
    ((butter_lowpass_init ⟨[]⟩ 2 1 4).2.sections.getD 0 default).a1 = 0 ∧
    ((butter_lowpass_init ⟨[]⟩ 2 1 4).2.sections.getD 0 default).a2 = -1 ∧
    (1 : ℝ) * 1 + ((butter_lowpass_init ⟨[]⟩ 2 1 4).2.sections.getD 0 default).a1 * 1
      + ((butter_lowpass_init ⟨[]⟩ 2 1 4).2.sections.getD 0 default).a2 = 0 ∧
    ¬ |((butter_lowpass_init ⟨[]⟩ 2 1 4).2.sections.getD 0 default).a2| < 1 := by
  have ha := normalize_gain_preserves_a
    (bilinear_zpk [(-(Real.sqrt 2 / 2 * 8), -(Real.sqrt 2 / 2 * 8)),
                   (Real.sqrt 2 / 2 * 8, -(Real.sqrt 2 / 2 * 8))] 2 4 0) 0 0
  rw [bilinear_zpk_lp_2_1_4] at ha
  rw [butter_lowpass_2_1_4_eq]
  refine ⟨rfl, ?_, ?_, ?_, ?_⟩
  · rw [ha.1]; rfl
  · rw [ha.2]; rfl
  · rw [ha.1, ha.2]; norm_num
  · rw [ha.2]; norm_num

/-! The band-pass pole transform: what the code actually solves. -/

/-- At the counterexample input the code's band-pass pole list for the
order-1 prototype is [(0, w0 - BW), (0, -w0 - BW)]. -/
theorem bp_poles_order_one :
    lp_to_bp_poles (butter_analog_poles 1) bp_bw bp_w0 =
      [(0, bp_w0 - bp_bw), (0, -bp_w0 - bp_bw)] := by
  have hπ := Real.pi_pos
  have ht1 : 0 < Real.tan (π * 1 / 8) :=
    Real.tan_pos_of_pos_of_lt_pi_div_two (by positivity) (by linarith)
  have ht2 : 0 < Real.tan (π * 2 / 8) :=
    Real.tan_pos_of_pos_of_lt_pi_div_two (by positivity) (by linarith)
  have hwc1 : 0 < bp_wc1 := by unfold bp_wc1; linarith
  have hwc2 : 0 < bp_wc2 := by unfold bp_wc2; linarith
  have hw0 : 0 < bp_w0 := Real.sqrt_pos.mpr (mul_pos hwc1 hwc2)
  rw [butter_analog_poles_one]
  unfold lp_to_bp_poles bp_pole_pair
  simp only [List.flatMap_cons, List.flatMap_nil, List.append_nil]
  norm_num
  rw [if_neg (by nlinarith), Real.sqrt_mul_self hw0.le]
  norm_num [sub_eq_add_neg]

/-- C3 counterexample: at order 1, f_low = 1 Hz, f_high = 2 Hz, fs = 8 Hz
(an accepted parameter set), the first band-pass pole s produced by
butter_bandpass_init's transform is not a root of the claimed quadratic
s^2 - p*BW*s + w0^2 = 0 for the prototype pole p: the residual evaluates
to (w0*BW, 0), which is nonzero. -/
theorem bandpass_pole_not_root_of_claimed_quadratic :
    cmul ((lp_to_bp_poles (butter_analog_poles 1) bp_bw bp_w0).getD 0 (0, 0))
         ((lp_to_bp_poles (butter_analog_poles 1) bp_bw bp_w0).getD 0 (0, 0)) -
      cmul (cmul ((butter_analog_poles 1).getD 0 (0, 0)) (bp_bw, 0))
           ((lp_to_bp_poles (butter_analog_poles 1) bp_bw bp_w0).getD 0 (0, 0)) +
      (bp_w0 * bp_w0, 0) ≠ (0, 0) := by
  have hπ := Real.pi_pos
  have ht1 : 0 < Real.tan (π * 1 / 8) :=
    Real.tan_pos_of_pos_of_lt_pi_div_two (by positivity) (by linarith)
  have ht2 : 0 < Real.tan (π * 2 / 8) :=
    Real.tan_pos_of_pos_of_lt_pi_div_two (by positivity) (by linarith)
  have htlt : Real.tan (π * 1 / 8) < Real.tan (π * 2 / 8) :=
    Real.tan_lt_tan_of_nonneg_of_lt_pi_div_two (by positivity) (by linarith)
      (by linarith)
  have hwc1 : 0 < bp_wc1 := by unfold bp_wc1; linarith
  have hwc2 : 0 < bp_wc2 := by unfold bp_wc2; linarith
  have hw0 : 0 < bp_w0 := Real.sqrt_pos.mpr (mul_pos hwc1 hwc2)
  have hbw : 0 < bp_bw := by unfold bp_bw bp_wc1 bp_wc2; linarith
  rw [bp_poles_order_one, butter_analog_poles_one]
  simp only [List.getD_cons_zero, cmul, Prod.mk_sub_mk, Prod.mk_add_mk, ne_eq,
    Prod.mk.injEq, not_and]
  intro h1
  nlinarith [h1, hw0, hbw]

/-- C3 amended: for every prototype pole p, butter_bandpass_init's transform
(lp_to_bp_poles, the concatenation of bp_pole_pair over the prototype
poles) emits exactly two poles per pole - 2N in total - and each emitted
pole s, after subtracting the constant shift i*Im(p)*BW, is a root of the
REAL-PART-ONLY quadratic s^2 + Re(p)*BW*s + w0^2 = 0, with both the real
and the complex discriminant branch handled; in general these are not
roots of the claimed quadratic s^2 - p*BW*s + w0^2 = 0. -/
theorem bandpass_pole_pair_solves_realpart_quadratic
    (poles : List (ℝ × ℝ)) (bw w0 : ℝ) :
    (lp_to_bp_poles poles bw w0).length = 2 * poles.length ∧
    ∀ p ∈ poles, ∀ s ∈ bp_pole_pair bw w0 p,
      cmul (s - (0, p.2 * bw)) (s - (0, p.2 * bw)) +
        cmul (p.1 * bw, 0) (s - (0, p.2 * bw)) + (w0 * w0, 0) = (0, 0) := by
  refine ⟨lp_to_bp_poles_length poles bw w0, ?_⟩
  intro p hp s hs
  unfold bp_pole_pair at hs
  dsimp only at hs
  split_ifs at hs with hge
  · have hb : Real.sqrt (-p.1 * bw / 2 * (-p.1 * bw / 2) - w0 * w0) *
        Real.sqrt (-p.1 * bw / 2 * (-p.1 * bw / 2) - w0 * w0) =
        -p.1 * bw / 2 * (-p.1 * bw / 2) - w0 * w0 :=
      Real.mul_self_sqrt hge
    simp only [List.mem_cons, List.not_mem_nil, or_false] at hs
    rcases hs with hs | hs
    all_goals subst hs
    all_goals simp only [cmul, Prod.mk_sub_mk, Prod.mk_add_mk, Prod.mk.injEq]
    all_goals refine ⟨?_, by ring⟩
    all_goals linear_combination hb
  · have hb : Real.sqrt (-(-p.1 * bw / 2 * (-p.1 * bw / 2) - w0 * w0)) *
        Real.sqrt (-(-p.1 * bw / 2 * (-p.1 * bw / 2) - w0 * w0)) =
        -(-p.1 * bw / 2 * (-p.1 * bw / 2) - w0 * w0) :=
      Real.mul_self_sqrt (by linarith [not_le.mp (by simpa using hge)])
    simp only [List.mem_cons, List.not_mem_nil, or_false] at hs
    rcases hs with hs | hs
    all_goals subst hs
    all_goals simp only [cmul, Prod.mk_sub_mk, Prod.mk_add_mk, Prod.mk.injEq]
    all_goals refine ⟨?_, by ring⟩
    all_goals linear_combination -hb

/-- Witness for the amended C3 theorem: prototype pole (0, -1) with BW = 1
and w0 = 1; the first emitted pole (0, 0) satisfies the real-part-only
quadratic after the imaginary shift. -/
theorem bandpass_pole_pair_solves_realpart_quadratic_witness :
    ((0 : ℝ), (-1 : ℝ)) ∈ [((0 : ℝ), (-1 : ℝ))] ∧
    ((0 : ℝ), (0 : ℝ)) ∈ bp_pole_pair 1 1 (0, -1) ∧
    cmul (((0 : ℝ), (0 : ℝ)) - (0, ((0 : ℝ), (-1 : ℝ)).2 * 1))
         (((0 : ℝ), (0 : ℝ)) - (0, ((0 : ℝ), (-1 : ℝ)).2 * 1)) +
      cmul (((0 : ℝ), (-1 : ℝ)).1 * 1, 0)
           (((0 : ℝ), (0 : ℝ)) - (0, ((0 : ℝ), (-1 : ℝ)).2 * 1)) +
      ((1 : ℝ) * 1, 0) = (0, 0) := by
  have hmem1 : ((0 : ℝ), (-1 : ℝ)) ∈ [((0 : ℝ), (-1 : ℝ))] :=
    List.mem_singleton.mpr rfl
  have hmem2 : ((0 : ℝ), (0 : ℝ)) ∈ bp_pole_pair 1 1 (0, -1) := by
    unfold bp_pole_pair
    rw [if_neg (by norm_num)]
    norm_num [Real.sqrt_one]
  exact ⟨hmem1, hmem2,
    (bandpass_pole_pair_solves_realpart_quadratic [((0 : ℝ), (-1 : ℝ))] 1 1).2
      (0, -1) hmem1 (0, 0) hmem2⟩
